import Mathlib

/-!
Verification of `lib/host_synchronize.py` (host synchronization sweep).

The sweep `synchronize_hosts(select_query, event_producer, chunk_size, interrupt)`
is embedded as an instrumented interpreter over a static record store.  Every
externally visible action of the Python generator (store count queries, chunk
reads, staleness-policy evaluation, event dispatch, counter increments, yielded
outcomes, interrupt polls) is recorded in an event trace, and the way the
generator terminates (loop condition false, interrupt return, a raised store
error, a raised policy-configuration error) is the run result.

Collaborators that live outside the embedded file are parameters of the
environment:
  * the cancellation predicate `interrupt` (polled once per chunk boundary);
  * per-offset chunk-read failure (`readFails`), modelling the store raising;
  * per-dispatch sink acknowledgment (`sinkAcks`): the source comment says
    "incase of a failed update event, event_producer logs the message", i.e.
    `write_event(..., wait=True)` returns whether or not delivery was
    acknowledged, so an acknowledgment bit is carried in the trace;
  * `policyFails`, modelling `_staleness_timestamps()` raising on a malformed
    staleness configuration.
-/

/-- A host record as the sweep sees it: a stable identifier and the
SQLAlchemy `instance_state(host).expired` flag consulted by
`_should_synchronize`. -/
structure Host where
  id : Nat
  expired : Bool
deriving DecidableEq, Repr

/-- One observable action of the generator, in program order. -/
inductive Ev where
  /-- the `select_query.count()` behind the initial "Total number" print -/
  | totalCount (n : Nat)
  /-- the `while select_query.offset(start).limit(chunk_size).count():` test -/
  | countQuery (off : Nat) (n : Nat)
  /-- reading `host_list = select_query.offset(start).limit(chunk_size)` -/
  | chunkRead (off : Nat)
  /-- the `_staleness_timestamps()` call made while serializing this host -/
  | policyEval (hostId : Nat)
  /-- `event_producer.write_event(..., wait=True)`; `acked` tells whether the
  sink acknowledged delivery (on failure it logs and returns) -/
  | dispatch (hostId : Nat) (acked : Bool)
  /-- `synchronize_host_count.inc()` -/
  | incCounter
  /-- `yield host.id, sync_up` -/
  | yieldOut (hostId : Nat) (sync : Bool)
  /-- the `if interrupt():` poll at the chunk boundary -/
  | poll (k : Nat) (res : Bool)
deriving DecidableEq, Repr

/-- How a run of the generator ends. -/
inductive RunResult where
  /-- the while condition found an empty chunk -/
  | completed
  /-- `interrupt()` returned true and the generator returned -/
  | interrupted
  /-- a chunk read against the store raised -/
  | storeError
  /-- `_staleness_timestamps()` raised on a malformed configuration -/
  | policyError
deriving DecidableEq, Repr

/-- The sweep's environment: the static record store (the stable selection),
the chunk size and the collaborator behaviours. -/
structure SweepEnv where
  store : List Host
  chunkSize : Nat
  interrupt : Nat → Bool
  readFails : Nat → Bool
  sinkAcks : Nat → Bool
  policyFails : Bool

/-- `select_query.offset(off).limit(lim)` over the static store. -/
def offsetLimit (store : List Host) (off lim : Nat) : List Host :=
  (store.drop off).take lim

/-- The inner `for host in host_list:` loop.  For each host it performs the
liveness check (`_should_synchronize`), and if live evaluates the staleness
policy, dispatches the event, increments the counter and yields `(id, true)`;
an expired host just yields `(id, false)`.  `d` counts dispatches made so far
(indexing `sinkAcks`).  Returns the emitted events and `some d'` on normal
completion, `none` if the policy evaluation raised. -/
def processHosts (env : SweepEnv) : List Host → Nat → (List Ev × Option Nat)
  | [], d => ([], some d)
  | h :: hs, d =>
    if h.expired then
      let r := processHosts env hs d
      (Ev.yieldOut h.id false :: r.1, r.2)
    else if env.policyFails then
      ([Ev.policyEval h.id], none)
    else
      let r := processHosts env hs (d + 1)
      (Ev.policyEval h.id :: Ev.dispatch h.id (env.sinkAcks d) :: Ev.incCounter ::
        Ev.yieldOut h.id true :: r.1, r.2)

/-- The `while` loop of `synchronize_hosts`: at offset `start`, run the count
query (raising if the store is unavailable), stop when the chunk is empty,
otherwise read the chunk, process its hosts, poll `interrupt` and either
return or advance the offset by `chunk_size`.  `remaining` is
`store.drop start`; `p` counts interrupt polls. -/
def sweepLoop (env : SweepEnv) (remaining : List Host) (start p d : Nat) :
    (List Ev × RunResult) :=
  if env.readFails start then ([], RunResult.storeError)
  else
    if hc : remaining.take env.chunkSize = [] then
      ([Ev.countQuery start 0], RunResult.completed)
    else
      let r := processHosts env (remaining.take env.chunkSize) d
      match r.2 with
      | none =>
        (Ev.countQuery start (remaining.take env.chunkSize).length ::
          Ev.chunkRead start :: r.1, RunResult.policyError)
      | some d' =>
        if env.interrupt p then
          (Ev.countQuery start (remaining.take env.chunkSize).length ::
            Ev.chunkRead start :: r.1 ++ [Ev.poll p true], RunResult.interrupted)
        else
          let rest := sweepLoop env (remaining.drop env.chunkSize)
            (start + env.chunkSize) (p + 1) d'
          (Ev.countQuery start (remaining.take env.chunkSize).length ::
            Ev.chunkRead start :: r.1 ++ Ev.poll p false :: rest.1, rest.2)
termination_by remaining.length
decreasing_by
  simp only [List.length_drop]
  have h2 : 0 < env.chunkSize ∧ 0 < remaining.length := by
    constructor
    · rcases Nat.eq_zero_or_pos env.chunkSize with hz | hpos
      · exfalso; apply hc; rw [hz]; simp
      · exact hpos
    · cases remaining with
      | nil => exact absurd (by simp) hc
      | cons a t => simp
  omega

/-- `synchronize_hosts`: the full generator run, starting with the
"Total number" count, then the chunked loop from offset 0. -/
def sweep (env : SweepEnv) : (List Ev × RunResult) :=
  let r := sweepLoop env env.store 0 0 0
  (Ev.totalCount env.store.length :: r.1, r.2)

/-- The `(record_id, synchronized)` pairs yielded by a run, in order. -/
def outcomes (tr : List Ev) : List (Nat × Bool) :=
  tr.filterMap fun e =>
    match e with
    | Ev.yieldOut i b => some (i, b)
    | _ => none

/-- Recognizes a counter increment. -/
def isInc : Ev → Bool
  | Ev.incCounter => true
  | _ => false

/-- Number of `synchronize_host_count.inc()` calls in a trace. -/
def incCount (tr : List Ev) : Nat := tr.countP isInc

/-- Recognizes an event dispatch (acknowledged or not). -/
def isDispatch : Ev → Bool
  | Ev.dispatch _ _ => true
  | _ => false

/-- Number of `write_event` calls in a trace. -/
def dispatchCount (tr : List Ev) : Nat := tr.countP isDispatch

/-- Recognizes a dispatch the sink acknowledged. -/
def isAckedDispatch : Ev → Bool
  | Ev.dispatch _ true => true
  | _ => false

/-- Number of sink-acknowledged dispatches in a trace. -/
def ackedCount (tr : List Ev) : Nat := tr.countP isAckedDispatch

/-- The host ids handed to the event sink, in dispatch order. -/
def dispatchIds (tr : List Ev) : List Nat :=
  tr.filterMap fun e =>
    match e with
    | Ev.dispatch i _ => some i
    | _ => none

/-- The host id an event is attributed to, when it names one. -/
def hostEv : Ev → Option Nat
  | Ev.policyEval i => some i
  | Ev.dispatch i _ => some i
  | Ev.yieldOut i _ => some i
  | _ => none

/-- The trace restricted to record-attributed events, keeping their order. -/
def projHost (tr : List Ev) : List Ev := tr.filter fun e => (hostEv e).isSome

/-- Number of live (non-expired) hosts in a list. -/
def liveCount (l : List Host) : Nat := (l.filter fun h => !h.expired).length

/-- The record-attributed events the sweep produces for a host list, live
hosts contributing their policy evaluation, dispatch and yield, expired hosts
only their yield; `d` is the dispatch index of the first live host. -/
def hostsProj (env : SweepEnv) : List Host → Nat → List Ev
  | [], _ => []
  | h :: t, d =>
    if h.expired then Ev.yieldOut h.id false :: hostsProj env t d
    else Ev.policyEval h.id :: Ev.dispatch h.id (env.sinkAcks d) ::
      Ev.yieldOut h.id true :: hostsProj env t (d + 1)

/-- `WARN_DAYS_AFTER = 7` from `lib/host_synchronize.py`. -/
def WARN_DAYS_AFTER : Nat := 7

/-- `DELETE_DAYS_AFTER = 14` from `lib/host_synchronize.py`. -/
def DELETE_DAYS_AFTER : Nat := 14

/-- `timedelta(days=n)` measured in seconds (a Python timedelta of whole days
is exactly `n * 86400` seconds). -/
def daysToSeconds (n : Nat) : Int := (n : Int) * 86400

/-- Modelled from the spec: `app.culling._Config` (not under src/), the
immutable staleness-policy pair of offsets, each a duration in seconds. -/
structure CullingConfig where
  stale_warning_offset_delta : Int
  culled_offset_delta : Int
deriving DecidableEq, Repr

/-- Modelled from the spec: the Staleness Timestamp Set `{stale_warning_at,
culled_at}` attached to the serialized event payload. -/
structure StalenessTimestamps where
  stale_warning_at : Int
  culled_at : Int
deriving DecidableEq, Repr

/-- Modelled from the spec: `app.culling.Timestamps` (not under src/) as a
"pure function of now": both members of the set are `now + offset`, at the
same resolution (seconds) as the input. -/
def timestampsFromNow (cfg : CullingConfig) (now : Int) : StalenessTimestamps :=
  { stale_warning_at := now + cfg.stale_warning_offset_delta
    culled_at := now + cfg.culled_offset_delta }

/-- `_staleness_timestamps()` from `lib/host_synchronize.py`: builds the
culling configuration from the module constants and evaluates it at the
decision time `now`. -/
def stalenessTimestampsAt (now : Int) : StalenessTimestamps :=
  timestampsFromNow
    { stale_warning_offset_delta := daysToSeconds WARN_DAYS_AFTER
      culled_offset_delta := daysToSeconds DELETE_DAYS_AFTER } now

/-- The per-host events a clean (no policy failure) run of the host loop
emits, in order: an expired host contributes only its `(id, false)` yield, a
live host its policy evaluation, dispatch, counter increment and
`(id, true)` yield. -/
def hostsTrace (env : SweepEnv) : List Host → Nat → List Ev
  | [], _ => []
  | h :: t, d =>
    if h.expired then Ev.yieldOut h.id false :: hostsTrace env t d
    else Ev.policyEval h.id :: Ev.dispatch h.id (env.sinkAcks d) :: Ev.incCounter ::
      Ev.yieldOut h.id true :: hostsTrace env t (d + 1)


@[simp] lemma outcomes_nil : outcomes [] = [] := rfl

@[simp] lemma outcomes_yieldOut (i : Nat) (b : Bool) (tr : List Ev) :
    outcomes (Ev.yieldOut i b :: tr) = (i, b) :: outcomes tr := rfl

@[simp] lemma outcomes_totalCount (n : Nat) (tr : List Ev) :
    outcomes (Ev.totalCount n :: tr) = outcomes tr := rfl

@[simp] lemma outcomes_countQuery (o n : Nat) (tr : List Ev) :
    outcomes (Ev.countQuery o n :: tr) = outcomes tr := rfl

@[simp] lemma outcomes_chunkRead (o : Nat) (tr : List Ev) :
    outcomes (Ev.chunkRead o :: tr) = outcomes tr := rfl

@[simp] lemma outcomes_policyEval (i : Nat) (tr : List Ev) :
    outcomes (Ev.policyEval i :: tr) = outcomes tr := rfl

@[simp] lemma outcomes_dispatch (i : Nat) (a : Bool) (tr : List Ev) :
    outcomes (Ev.dispatch i a :: tr) = outcomes tr := rfl

@[simp] lemma outcomes_incCounter (tr : List Ev) :
    outcomes (Ev.incCounter :: tr) = outcomes tr := rfl

@[simp] lemma outcomes_poll (k : Nat) (r : Bool) (tr : List Ev) :
    outcomes (Ev.poll k r :: tr) = outcomes tr := rfl

@[simp] lemma outcomes_append (a b : List Ev) :
    outcomes (a ++ b) = outcomes a ++ outcomes b := by
  simp [outcomes]

@[simp] lemma incCount_nil : incCount [] = 0 := rfl

@[simp] lemma incCount_cons (e : Ev) (tr : List Ev) :
    incCount (e :: tr) = incCount tr + (if isInc e then 1 else 0) := by
  simp [incCount, List.countP_cons]

@[simp] lemma incCount_append (a b : List Ev) :
    incCount (a ++ b) = incCount a + incCount b := by
  simp [incCount, List.countP_append]

@[simp] lemma dispatchCount_nil : dispatchCount [] = 0 := rfl

@[simp] lemma dispatchCount_cons (e : Ev) (tr : List Ev) :
    dispatchCount (e :: tr) = dispatchCount tr + (if isDispatch e then 1 else 0) := by
  simp [dispatchCount, List.countP_cons]

@[simp] lemma dispatchCount_append (a b : List Ev) :
    dispatchCount (a ++ b) = dispatchCount a + dispatchCount b := by
  simp [dispatchCount, List.countP_append]

@[simp] lemma dispatchIds_nil : dispatchIds [] = [] := rfl

@[simp] lemma dispatchIds_dispatch (i : Nat) (a : Bool) (tr : List Ev) :
    dispatchIds (Ev.dispatch i a :: tr) = i :: dispatchIds tr := rfl

@[simp] lemma dispatchIds_yieldOut (i : Nat) (b : Bool) (tr : List Ev) :
    dispatchIds (Ev.yieldOut i b :: tr) = dispatchIds tr := rfl

@[simp] lemma dispatchIds_policyEval (i : Nat) (tr : List Ev) :
    dispatchIds (Ev.policyEval i :: tr) = dispatchIds tr := rfl

@[simp] lemma dispatchIds_incCounter (tr : List Ev) :
    dispatchIds (Ev.incCounter :: tr) = dispatchIds tr := rfl

@[simp] lemma dispatchIds_totalCount (n : Nat) (tr : List Ev) :
    dispatchIds (Ev.totalCount n :: tr) = dispatchIds tr := rfl

@[simp] lemma dispatchIds_countQuery (o n : Nat) (tr : List Ev) :
    dispatchIds (Ev.countQuery o n :: tr) = dispatchIds tr := rfl

@[simp] lemma dispatchIds_chunkRead (o : Nat) (tr : List Ev) :
    dispatchIds (Ev.chunkRead o :: tr) = dispatchIds tr := rfl

@[simp] lemma dispatchIds_poll (k : Nat) (r : Bool) (tr : List Ev) :
    dispatchIds (Ev.poll k r :: tr) = dispatchIds tr := rfl

@[simp] lemma dispatchIds_append (a b : List Ev) :
    dispatchIds (a ++ b) = dispatchIds a ++ dispatchIds b := by
  simp [dispatchIds]

@[simp] lemma projHost_nil : projHost [] = [] := rfl

@[simp] lemma projHost_cons (e : Ev) (tr : List Ev) :
    projHost (e :: tr) = if (hostEv e).isSome then e :: projHost tr else projHost tr := by
  simp [projHost, List.filter_cons]

@[simp] lemma projHost_append (a b : List Ev) :
    projHost (a ++ b) = projHost a ++ projHost b := by
  simp [projHost]

@[simp] lemma liveCount_nil : liveCount [] = 0 := rfl

lemma liveCount_cons (h : Host) (t : List Host) :
    liveCount (h :: t) = (if h.expired then 0 else 1) + liveCount t := by
  by_cases he : h.expired <;> simp [liveCount, he, Nat.add_comm]

lemma liveCount_append (a b : List Host) :
    liveCount (a ++ b) = liveCount a + liveCount b := by
  simp [liveCount]

lemma outcomes_hostsTrace (env : SweepEnv) (l : List Host) (d : Nat) :
    outcomes (hostsTrace env l d) = l.map fun h => (h.id, !h.expired) := by
  induction l generalizing d with
  | nil => rfl
  | cons h t ih =>
    by_cases he : h.expired <;> simp [hostsTrace, he, ih]

lemma incCount_hostsTrace (env : SweepEnv) (l : List Host) (d : Nat) :
    incCount (hostsTrace env l d) = liveCount l := by
  induction l generalizing d with
  | nil => rfl
  | cons h t ih =>
    by_cases he : h.expired <;>
      simp [hostsTrace, he, ih, liveCount_cons, isInc, Nat.add_comm]

lemma dispatchIds_hostsTrace (env : SweepEnv) (l : List Host) (d : Nat) :
    dispatchIds (hostsTrace env l d) = (l.filter fun h => !h.expired).map Host.id := by
  induction l generalizing d with
  | nil => rfl
  | cons h t ih =>
    by_cases he : h.expired <;> simp [hostsTrace, he, ih]

lemma projHost_hostsTrace (env : SweepEnv) (l : List Host) (d : Nat) :
    projHost (hostsTrace env l d) = hostsProj env l d := by
  induction l generalizing d with
  | nil => rfl
  | cons h t ih =>
    by_cases he : h.expired <;> simp [hostsTrace, hostsProj, hostEv, he, ih]

lemma hostsProj_append (env : SweepEnv) (a b : List Host) (d : Nat) :
    hostsProj env (a ++ b) d = hostsProj env a d ++ hostsProj env b (d + liveCount a) := by
  induction a generalizing d with
  | nil => simp [hostsProj]
  | cons h t ih =>
    by_cases he : h.expired <;>
      simp [hostsProj, he, ih, liveCount_cons, Nat.add_assoc, Nat.add_comm 1]

lemma processHosts_ok (env : SweepEnv) (hpf : env.policyFails = false)
    (l : List Host) (d : Nat) :
    processHosts env l d = (hostsTrace env l d, some (d + liveCount l)) := by
  induction l generalizing d with
  | nil => simp [processHosts, hostsTrace]
  | cons h t ih =>
    by_cases he : h.expired <;>
      simp [processHosts, hostsTrace, he, hpf, ih, liveCount_cons, Nat.add_assoc,
        Nat.add_comm 1]

lemma sweepLoop_fail (env : SweepEnv) (remaining : List Host) (start p d : Nat)
    (h : env.readFails start = true) :
    sweepLoop env remaining start p d = ([], RunResult.storeError) := by
  rw [sweepLoop]; simp [h]

lemma sweepLoop_done (env : SweepEnv) (remaining : List Host) (start p d : Nat)
    (h : env.readFails start = false) (h2 : remaining.take env.chunkSize = []) :
    sweepLoop env remaining start p d = ([Ev.countQuery start 0], RunResult.completed) := by
  rw [sweepLoop]; simp [h, h2]

lemma sweepLoop_stop (env : SweepEnv) (remaining : List Host) (start p d : Nat)
    (hr : env.readFails start = false) (hpf : env.policyFails = false)
    (hc : remaining.take env.chunkSize ≠ []) (hi : env.interrupt p = true) :
    sweepLoop env remaining start p d =
      (Ev.countQuery start (remaining.take env.chunkSize).length :: Ev.chunkRead start ::
        hostsTrace env (remaining.take env.chunkSize) d ++ [Ev.poll p true],
       RunResult.interrupted) := by
  rw [sweepLoop]; simp [hr, hc, processHosts_ok env hpf, hi]

lemma sweepLoop_go (env : SweepEnv) (remaining : List Host) (start p d : Nat)
    (hr : env.readFails start = false) (hpf : env.policyFails = false)
    (hc : remaining.take env.chunkSize ≠ []) (hi : env.interrupt p = false) :
    sweepLoop env remaining start p d =
      (Ev.countQuery start (remaining.take env.chunkSize).length :: Ev.chunkRead start ::
        hostsTrace env (remaining.take env.chunkSize) d ++ Ev.poll p false ::
          (sweepLoop env (remaining.drop env.chunkSize) (start + env.chunkSize) (p + 1)
            (d + liveCount (remaining.take env.chunkSize))).1,
       (sweepLoop env (remaining.drop env.chunkSize) (start + env.chunkSize) (p + 1)
          (d + liveCount (remaining.take env.chunkSize))).2) := by
  rw [sweepLoop]; simp [hr, hc, processHosts_ok env hpf, hi]

lemma take_ne_nil_of_pos (l : List Host) (c : Nat) (hC : 0 < c) (hl : l ≠ []) :
    l.take c ≠ [] := by
  cases l with
  | nil => exact absurd rfl hl
  | cons a t =>
    cases c with
    | zero => omega
    | succ m => simp [List.take]

lemma sweepLoop_clean (env : SweepEnv)
    (hr : ∀ o, env.readFails o = false) (hpf : env.policyFails = false)
    (hi : ∀ j, env.interrupt j = false) (hC : 0 < env.chunkSize) :
    ∀ (n : Nat) (remaining : List Host), remaining.length ≤ n → ∀ (start p d : Nat),
      outcomes (sweepLoop env remaining start p d).1 =
        (remaining.map fun h => (h.id, !h.expired)) ∧
      (sweepLoop env remaining start p d).2 = RunResult.completed ∧
      incCount (sweepLoop env remaining start p d).1 = liveCount remaining ∧
      dispatchIds (sweepLoop env remaining start p d).1 =
        ((remaining.filter fun h => !h.expired).map Host.id) ∧
      projHost (sweepLoop env remaining start p d).1 = hostsProj env remaining d := by
  intro n
  induction n with
  | zero =>
    intro remaining hlen start p d
    have hnil : remaining = [] := List.eq_nil_of_length_eq_zero (Nat.le_zero.mp hlen)
    subst hnil
    rw [sweepLoop_done env [] start p d (hr start) (by simp)]
    simp [hostEv, hostsProj, liveCount, isInc]
  | succ n ih =>
    intro remaining hlen start p d
    by_cases hnil : remaining = []
    · subst hnil
      rw [sweepLoop_done env [] start p d (hr start) (by simp)]
      simp [hostEv, hostsProj, liveCount, isInc]
    · have hc : remaining.take env.chunkSize ≠ [] :=
        take_ne_nil_of_pos remaining env.chunkSize hC hnil
      rw [sweepLoop_go env remaining start p d (hr start) hpf hc (hi p)]
      have hlen' : (remaining.drop env.chunkSize).length ≤ n := by
        have h1 : 0 < remaining.length := List.length_pos.mpr hnil
        simp only [List.length_drop]
        omega
      have h2 := ih (remaining.drop env.chunkSize) hlen' (start + env.chunkSize) (p + 1)
        (d + liveCount (remaining.take env.chunkSize))
      obtain ⟨ho, hres, hinc, hdi, hpj⟩ := h2
      refine ⟨?_, ?_, ?_, ?_, ?_⟩
      · simp only [outcomes_countQuery, outcomes_chunkRead, outcomes_append,
          outcomes_poll, outcomes_hostsTrace, ho]
        rw [← List.map_append, List.take_append_drop]
      · exact hres
      · simp only [incCount_cons, incCount_append, incCount_hostsTrace, isInc,
          hinc]
        have : liveCount remaining =
            liveCount (remaining.take env.chunkSize) +
              liveCount (remaining.drop env.chunkSize) := by
          rw [← liveCount_append, List.take_append_drop]
        simp [this]
      · simp only [dispatchIds_countQuery, dispatchIds_chunkRead, dispatchIds_append,
          dispatchIds_poll, dispatchIds_hostsTrace, hdi]
        rw [← List.map_append, ← List.filter_append, List.take_append_drop]
      · simp only [projHost_cons, projHost_append, hostEv, projHost_hostsTrace, hpj]
        simp only [Option.isSome_none, Bool.false_eq_true, if_false]
        rw [← hostsProj_append, List.take_append_drop]

/-- C1: for every static record store with N records and every chunk size
C > 0 (with the store available, the policy well-formed and no interrupt),
`synchronize_hosts` yields exactly one `(record_id, synchronized)` outcome per
record, each record visited exactly once and in selection order, for every
relation of N to C, and the run completes normally. -/
theorem chunking_completeness (env : SweepEnv)
    (hr : ∀ o, env.readFails o = false) (hpf : env.policyFails = false)
    (hi : ∀ j, env.interrupt j = false) (hC : 0 < env.chunkSize) :
    outcomes (sweep env).1 = (env.store.map fun h => (h.id, !h.expired)) ∧
    (sweep env).2 = RunResult.completed := by
  have h := sweepLoop_clean env hr hpf hi hC env.store.length env.store (le_refl _) 0 0 0
  simp only [sweep, outcomes_totalCount]
  exact ⟨h.1, h.2.1⟩

/-- A five-record store (record 2 concurrently expired) swept with chunk
size 2 by honest collaborators. -/
def envW1 : SweepEnv :=
  { store := [⟨1, false⟩, ⟨2, true⟩, ⟨3, false⟩, ⟨4, false⟩, ⟨5, false⟩]
    chunkSize := 2
    interrupt := fun _ => false
    readFails := fun _ => false
    sinkAcks := fun _ => true
    policyFails := false }

/-- Witness for C1: N = 5, C = 2 (N not a multiple of C). -/
theorem chunking_completeness_witness :
    (∀ o, envW1.readFails o = false) ∧ envW1.policyFails = false ∧
    (∀ j, envW1.interrupt j = false) ∧ 0 < envW1.chunkSize ∧
    outcomes (sweep envW1).1 =
      [(1, true), (2, false), (3, true), (4, true), (5, true)] ∧
    (sweep envW1).2 = RunResult.completed := by
  have h := chunking_completeness envW1 (fun _ => rfl) rfl (fun _ => rfl)
    (by decide)
  refine ⟨fun _ => rfl, rfl, fun _ => rfl, by decide, ?_, h.2⟩
  rw [h.1]; rfl

/-- C10: calling `synchronize_hosts` with `chunk_size = 0` terminates
immediately with an empty outcome sequence: the zero-limit count query finds
no records, so the loop body never runs, and nothing is raised. -/
theorem zero_chunk_size_terminates (env : SweepEnv)
    (hz : env.chunkSize = 0) (hr : env.readFails 0 = false) :
    outcomes (sweep env).1 = [] ∧ (sweep env).2 = RunResult.completed := by
  have h := sweepLoop_done env env.store 0 0 0 hr (by simp [hz])
  simp [sweep, h]

/-- A three-record store swept with chunk size 0. -/
def envW10 : SweepEnv :=
  { store := [⟨1, false⟩, ⟨2, false⟩, ⟨3, false⟩]
    chunkSize := 0
    interrupt := fun _ => false
    readFails := fun _ => false
    sinkAcks := fun _ => true
    policyFails := false }

/-- Witness for C10: three records, chunk size 0. -/
theorem zero_chunk_size_terminates_witness :
    envW10.chunkSize = 0 ∧ envW10.readFails 0 = false ∧
    outcomes (sweep envW10).1 = [] ∧ (sweep envW10).2 = RunResult.completed := by
  have h := zero_chunk_size_terminates envW10 rfl rfl
  exact ⟨rfl, rfl, h.1, h.2⟩

/-- C6: for the configured policy (`warn_after` = 7 days, `cull_after` = 14
days) and every decision time T (in seconds), the staleness timestamp set
computed by `_staleness_timestamps` is exactly `{stale_warning_at = T + 7
days, culled_at = T + 14 days}`, at the input's resolution. -/
theorem staleness_timestamps_correct (T : Int) :
    stalenessTimestampsAt T =
      { stale_warning_at := T + 7 * 86400, culled_at := T + 14 * 86400 } := by
  simp [stalenessTimestampsAt, timestampsFromNow, daysToSeconds,
    WARN_DAYS_AFTER, DELETE_DAYS_AFTER]

/-- C9: if the cancellation predicate is already true at the first poll and
the store is non-empty, the whole first chunk is still fully processed (its
events dispatched, its counter increments performed, all its outcomes
yielded), because `interrupt()` is polled only after a chunk completes. -/
theorem immediate_interrupt_still_processes_first_chunk (env : SweepEnv)
    (hr : ∀ o, env.readFails o = false) (hpf : env.policyFails = false)
    (hC : 0 < env.chunkSize) (hi0 : env.interrupt 0 = true)
    (hne : env.store ≠ []) :
    (sweep env).2 = RunResult.interrupted ∧
    outcomes (sweep env).1 =
      ((env.store.take env.chunkSize).map fun h => (h.id, !h.expired)) ∧
    incCount (sweep env).1 = liveCount (env.store.take env.chunkSize) ∧
    dispatchIds (sweep env).1 =
      ((env.store.take env.chunkSize).filter fun h => !h.expired).map Host.id := by
  have hc := take_ne_nil_of_pos env.store env.chunkSize hC hne
  have hstep := sweepLoop_stop env env.store 0 0 0 (hr 0) hpf hc hi0
  simp [sweep, hstep, outcomes_hostsTrace, incCount_hostsTrace,
    dispatchIds_hostsTrace, isInc]

/-- A five-record store, chunk size 2, with the cancellation predicate true
from the start. -/
def envW9 : SweepEnv :=
  { store := [⟨1, false⟩, ⟨2, true⟩, ⟨3, false⟩, ⟨4, false⟩, ⟨5, false⟩]
    chunkSize := 2
    interrupt := fun _ => true
    readFails := fun _ => false
    sinkAcks := fun _ => true
    policyFails := false }

/-- Witness for C9: the first chunk (records 1 and 2) is fully processed
before the interrupt return. -/
theorem immediate_interrupt_still_processes_first_chunk_witness :
    (∀ o, envW9.readFails o = false) ∧ envW9.policyFails = false ∧
    0 < envW9.chunkSize ∧ envW9.interrupt 0 = true ∧ envW9.store ≠ [] ∧
    (sweep envW9).2 = RunResult.interrupted ∧
    outcomes (sweep envW9).1 = [(1, true), (2, false)] ∧
    incCount (sweep envW9).1 = 1 ∧ dispatchIds (sweep envW9).1 = [1] := by
  have h := immediate_interrupt_still_processes_first_chunk envW9
    (fun _ => rfl) rfl (by decide) rfl (by decide)
  refine ⟨fun _ => rfl, rfl, by decide, rfl, by decide, h.1, ?_, ?_, ?_⟩
  · rw [h.2.1]; rfl
  · rw [h.2.2.1]; rfl
  · rw [h.2.2.2]; rfl

/-- C4: a record reported invalidated (expired) at the liveness check yields
`(id, false)`, the event sink is never called for it, the counter receives
zero increments for it (the run's increments are exactly one per live
record, so none is attributable to an expired one) and the run raises no
error; every record of the store still receives an outcome, so processing
continued with the remaining records.  Record ids are assumed distinct so
that "no sink call for this record" is well defined. -/
theorem expired_record_skipped_without_dispatch (env : SweepEnv) (h : Host)
    (hr : ∀ o, env.readFails o = false) (hpf : env.policyFails = false)
    (hi : ∀ j, env.interrupt j = false) (hC : 0 < env.chunkSize)
    (hmem : h ∈ env.store) (hexp : h.expired = true)
    (hnd : (env.store.map Host.id).Nodup) :
    (h.id, false) ∈ outcomes (sweep env).1 ∧
    h.id ∉ dispatchIds (sweep env).1 ∧
    incCount (sweep env).1 = liveCount env.store ∧
    (sweep env).2 = RunResult.completed ∧
    (outcomes (sweep env).1).length = env.store.length := by
  have hm := sweepLoop_clean env hr hpf hi hC env.store.length env.store
    (le_refl _) 0 0 0
  obtain ⟨ho, hres, hinc, hdi, _⟩ := hm
  have ho' : outcomes (sweep env).1 = (env.store.map fun x => (x.id, !x.expired)) := by
    simpa [sweep] using ho
  have hdi' : dispatchIds (sweep env).1 =
      ((env.store.filter fun x => !x.expired).map Host.id) := by
    simpa [sweep] using hdi
  refine ⟨?_, ?_, by simpa [sweep, isInc] using hinc,
    by simpa [sweep] using hres, ?_⟩
  · rw [ho']
    exact List.mem_map.mpr ⟨h, hmem, by simp [hexp]⟩
  · rw [hdi']
    intro hin
    obtain ⟨h', hh', hid⟩ := List.mem_map.mp hin
    obtain ⟨hh'mem, hh'live⟩ := List.mem_filter.mp hh'
    have : h' = h := List.inj_on_of_nodup_map hnd hh'mem hmem hid
    rw [this] at hh'live
    simp [hexp] at hh'live
  · rw [ho']; simp

/-- A five-record store with records 2 and 5 expired, chunk size 2. -/
def envW4 : SweepEnv :=
  { store := [⟨1, false⟩, ⟨2, true⟩, ⟨3, false⟩, ⟨4, false⟩, ⟨5, true⟩]
    chunkSize := 2
    interrupt := fun _ => false
    readFails := fun _ => false
    sinkAcks := fun _ => true
    policyFails := false }

/-- Witness for C4 at expired record 2: its outcome is `(2, false)`, the
sink never sees id 2, and the run's three increments are exactly its three
live records, so none is attributable to record 2 (or record 5). -/
theorem expired_record_skipped_without_dispatch_witness :
    (⟨2, true⟩ : Host) ∈ envW4.store ∧ (2 : Nat) ∉ dispatchIds (sweep envW4).1 ∧
    (2, false) ∈ outcomes (sweep envW4).1 ∧
    incCount (sweep envW4).1 = 3 ∧ liveCount envW4.store = 3 ∧
    (sweep envW4).2 = RunResult.completed ∧
    (outcomes (sweep envW4).1).length = envW4.store.length := by
  have h := expired_record_skipped_without_dispatch envW4 ⟨2, true⟩
    (fun _ => rfl) rfl (fun _ => rfl) (by decide) (by decide) rfl (by decide)
  exact ⟨by decide, h.2.1, h.1, by rw [h.2.2.1]; rfl, by rfl, h.2.2.2.1,
    h.2.2.2.2⟩

lemma incCount_eq_dispatchCount_processHosts (env : SweepEnv) (l : List Host)
    (d : Nat) :
    incCount (processHosts env l d).1 = dispatchCount (processHosts env l d).1 := by
  induction l generalizing d with
  | nil => rfl
  | cons h t ih =>
    by_cases he : h.expired
    · simp [processHosts, he, isInc, isDispatch, ih]
    · by_cases hp : env.policyFails <;>
        simp [processHosts, he, hp, isInc, isDispatch, ih]

lemma incCount_eq_dispatchCount_sweepLoop (env : SweepEnv) :
    ∀ (n : Nat) (remaining : List Host), remaining.length ≤ n →
      ∀ (start p d : Nat),
        incCount (sweepLoop env remaining start p d).1 =
          dispatchCount (sweepLoop env remaining start p d).1 := by
  intro n
  induction n with
  | zero =>
    intro remaining hlen start p d
    have hnil : remaining = [] := List.eq_nil_of_length_eq_zero (Nat.le_zero.mp hlen)
    subst hnil
    by_cases hrf : env.readFails start
    · rw [sweepLoop_fail env [] start p d hrf]; rfl
    · rw [sweepLoop_done env [] start p d (Bool.eq_false_iff.mpr hrf) (by simp)]
      simp [isInc, isDispatch]
  | succ n ih =>
    intro remaining hlen start p d
    by_cases hrf : env.readFails start
    · rw [sweepLoop_fail env remaining start p d hrf]; rfl
    · have hrf' : env.readFails start = false := Bool.eq_false_iff.mpr hrf
      by_cases hc : remaining.take env.chunkSize = []
      · rw [sweepLoop_done env remaining start p d hrf' hc]
        simp [isInc, isDispatch]
      · rw [sweepLoop]
        simp only [hrf', Bool.false_eq_true, if_false, hc, dif_neg,
          not_false_eq_true]
        rcases hph : (processHosts env (remaining.take env.chunkSize) d).2 with _ | d'
        · simp only [hph]
          simp [isInc, isDispatch, incCount_eq_dispatchCount_processHosts]
        · simp only [hph]
          by_cases hip : env.interrupt p
          · simp only [hip, if_true]
            simp [isInc, isDispatch, incCount_eq_dispatchCount_processHosts]
          · simp only [hip, Bool.false_eq_true, if_false]
            have hrec := ih (remaining.drop env.chunkSize)
              (by
                have h1 : 0 < remaining.length := by
                  cases remaining with
                  | nil => exact absurd (by simp) hc
                  | cons a t => simp
                simp only [List.length_drop]
                have h2 : 0 < env.chunkSize := by
                  rcases Nat.eq_zero_or_pos env.chunkSize with hz | hpos
                  · exfalso; apply hc; rw [hz]; simp
                  · exact hpos
                omega)
              (start + env.chunkSize) (p + 1) d'
            simp [isInc, isDispatch, incCount_eq_dispatchCount_processHosts, hrec]

/-- C2 (corrected): the success counter tracks dispatch attempts, not sink
acknowledgments.  In every run, the number of `synchronize_host_count.inc()`
calls equals the number of `write_event` calls: `inc()` follows the dispatch
unconditionally, whether or not the sink acknowledged delivery. -/
theorem counter_counts_dispatches (env : SweepEnv) :
    incCount (sweep env).1 = dispatchCount (sweep env).1 := by
  have h := incCount_eq_dispatchCount_sweepLoop env env.store.length env.store
    (le_refl _) 0 0 0
  simpa [sweep, isInc, isDispatch] using h

/-- A single live record whose dispatch the sink never acknowledges (the
producer logs the failed delivery and returns). -/
def envC2 : SweepEnv :=
  { store := [⟨1, false⟩]
    chunkSize := 1
    interrupt := fun _ => false
    readFails := fun _ => false
    sinkAcks := fun _ => false
    policyFails := false }

/-- Counterexample to C2 as stated: a dispatch that is never acknowledged by
the sink still produces a counter increment — the trace holds an
unacknowledged dispatch, no acknowledged dispatch, and one increment. -/
theorem counter_incremented_without_ack :
    Ev.dispatch 1 false ∈ (sweep envC2).1 ∧
    ackedCount (sweep envC2).1 = 0 ∧
    incCount (sweep envC2).1 = 1 := by
  have htr : (sweep envC2).1 =
      [Ev.totalCount 1, Ev.countQuery 0 1, Ev.chunkRead 0, Ev.policyEval 1,
        Ev.dispatch 1 false, Ev.incCounter, Ev.yieldOut 1 true,
        Ev.poll 0 false, Ev.countQuery 1 0] := by
    simp [sweep, sweepLoop, processHosts, envC2]
  rw [htr]
  refine ⟨by simp, ?_, ?_⟩ <;>
    simp [ackedCount, incCount, List.countP_cons, isAckedDispatch, isInc]

lemma sweepLoop_interrupt_at (env : SweepEnv)
    (hr : ∀ o, env.readFails o = false) (hpf : env.policyFails = false)
    (hC : 0 < env.chunkSize) :
    ∀ (k : Nat) (remaining : List Host) (start p d : Nat),
      (∀ j, j < k → env.interrupt (p + j) = false) →
      env.interrupt (p + k) = true →
      k * env.chunkSize < remaining.length →
      (sweepLoop env remaining start p d).2 = RunResult.interrupted ∧
      outcomes (sweepLoop env remaining start p d).1 =
        ((remaining.take ((k + 1) * env.chunkSize)).map fun h => (h.id, !h.expired)) := by
  intro k
  induction k with
  | zero =>
    intro remaining start p d hbef hk hlen
    have hne : remaining ≠ [] := by
      intro hnil; rw [hnil] at hlen; simp at hlen
    have hc := take_ne_nil_of_pos remaining env.chunkSize hC hne
    have hp0 : env.interrupt p = true := by simpa using hk
    rw [sweepLoop_stop env remaining start p d (hr start) hpf hc hp0]
    simp [outcomes_hostsTrace, Nat.one_mul]
  | succ k ih =>
    intro remaining start p d hbef hk hlen
    have hne : remaining ≠ [] := by
      intro hnil; rw [hnil] at hlen; simp at hlen
    have hc := take_ne_nil_of_pos remaining env.chunkSize hC hne
    have hp0 : env.interrupt p = false := by
      have := hbef 0 (Nat.succ_pos k); simpa using this
    rw [sweepLoop_go env remaining start p d (hr start) hpf hc hp0]
    have hlen' : k * env.chunkSize < (remaining.drop env.chunkSize).length := by
      simp only [List.length_drop]
      have : (k + 1) * env.chunkSize = k * env.chunkSize + env.chunkSize := by ring
      omega
    have hbef' : ∀ j, j < k → env.interrupt (p + 1 + j) = false := by
      intro j hj
      have := hbef (j + 1) (by omega)
      simpa [Nat.add_assoc, Nat.add_comm 1 j] using this
    have hk' : env.interrupt (p + 1 + k) = true := by
      simpa [Nat.add_assoc, Nat.add_comm 1 k] using hk
    have hrec := ih (remaining.drop env.chunkSize) (start + env.chunkSize)
      (p + 1) (d + liveCount (remaining.take env.chunkSize)) hbef' hk' hlen'
    refine ⟨hrec.1, ?_⟩
    simp only [outcomes_countQuery, outcomes_chunkRead, outcomes_append,
      outcomes_poll, outcomes_hostsTrace, hrec.2]
    rw [← List.map_append]
    have hsplit : remaining.take ((k + 1 + 1) * env.chunkSize) =
        remaining.take env.chunkSize ++
          (remaining.drop env.chunkSize).take ((k + 1) * env.chunkSize) := by
      have : (k + 1 + 1) * env.chunkSize =
          env.chunkSize + (k + 1) * env.chunkSize := by ring
      rw [this, List.take_add]
    rw [hsplit]

/-- C5: if the cancellation predicate is false at the first k polls and true
at poll k (i.e. becomes true after chunk k has been fully yielded), then all
records of chunks 0..k are yielded, no record of chunk k+1 is visited, and
the sequence ends early without raising (the run result is a plain
interrupted return).  Chunks are indexed from 0. -/
theorem interrupt_stops_at_chunk_boundary (env : SweepEnv) (k : Nat)
    (hr : ∀ o, env.readFails o = false) (hpf : env.policyFails = false)
    (hC : 0 < env.chunkSize)
    (hbef : ∀ j, j < k → env.interrupt j = false)
    (hk : env.interrupt k = true)
    (hlen : k * env.chunkSize < env.store.length) :
    (sweep env).2 = RunResult.interrupted ∧
    outcomes (sweep env).1 =
      ((env.store.take ((k + 1) * env.chunkSize)).map fun h => (h.id, !h.expired)) := by
  have h := sweepLoop_interrupt_at env hr hpf hC k env.store 0 0 0
    (by simpa using hbef) (by simpa using hk) hlen
  exact ⟨by simpa [sweep] using h.1, by simpa [sweep] using h.2⟩

/-- A six-record store, chunk size 2, cancellation requested at the poll
after the second chunk (k = 1). -/
def envW5 : SweepEnv :=
  { store := [⟨1, false⟩, ⟨2, true⟩, ⟨3, false⟩, ⟨4, false⟩, ⟨5, false⟩, ⟨6, false⟩]
    chunkSize := 2
    interrupt := fun j => decide (1 ≤ j)
    readFails := fun _ => false
    sinkAcks := fun _ => true
    policyFails := false }

/-- Witness for C5 with k = 1: chunks 0 and 1 (records 1..4) are yielded,
records 5 and 6 of chunk 2 are never visited. -/
theorem interrupt_stops_at_chunk_boundary_witness :
    (∀ j, j < 1 → envW5.interrupt j = false) ∧ envW5.interrupt 1 = true ∧
    1 * envW5.chunkSize < envW5.store.length ∧
    (sweep envW5).2 = RunResult.interrupted ∧
    outcomes (sweep envW5).1 = [(1, true), (2, false), (3, true), (4, true)] := by
  have h := interrupt_stops_at_chunk_boundary envW5 1 (fun _ => rfl) rfl
    (by decide) (by intro j hj; interval_cases j; rfl) rfl (by decide)
  refine ⟨by intro j hj; interval_cases j; rfl, rfl, by decide, h.1, ?_⟩
  rw [h.2]; rfl

lemma sweepLoop_storefail_at (env : SweepEnv) (hpf : env.policyFails = false)
    (hC : 0 < env.chunkSize) (hi : ∀ j, env.interrupt j = false) :
    ∀ (k : Nat) (remaining : List Host) (start p d : Nat),
      (∀ j, j < k → env.readFails (start + j * env.chunkSize) = false) →
      env.readFails (start + k * env.chunkSize) = true →
      k * env.chunkSize ≤ remaining.length →
      (sweepLoop env remaining start p d).2 = RunResult.storeError ∧
      outcomes (sweepLoop env remaining start p d).1 =
        ((remaining.take (k * env.chunkSize)).map fun h => (h.id, !h.expired)) := by
  intro k
  induction k with
  | zero =>
    intro remaining start p d hbef hk hlen
    have hk0 : env.readFails start = true := by simpa using hk
    rw [sweepLoop_fail env remaining start p d hk0]
    simp
  | succ k ih =>
    intro remaining start p d hbef hk hlen
    have hne : remaining ≠ [] := by
      intro hnil; rw [hnil] at hlen
      simp only [List.length_nil, Nat.le_zero] at hlen
      have hpos := Nat.mul_pos (show 0 < k + 1 by omega) hC
      omega
    have hr0 : env.readFails start = false := by
      have := hbef 0 (Nat.succ_pos k); simpa using this
    have hc := take_ne_nil_of_pos remaining env.chunkSize hC hne
    rw [sweepLoop_go env remaining start p d hr0 hpf hc (hi p)]
    have hbef' : ∀ j, j < k →
        env.readFails (start + env.chunkSize + j * env.chunkSize) = false := by
      intro j hj
      have := hbef (j + 1) (by omega)
      have harith : start + (j + 1) * env.chunkSize =
          start + env.chunkSize + j * env.chunkSize := by ring
      rwa [harith] at this
    have hk' : env.readFails (start + env.chunkSize + k * env.chunkSize) = true := by
      have harith : start + (k + 1) * env.chunkSize =
          start + env.chunkSize + k * env.chunkSize := by ring
      rwa [harith] at hk
    have hlen' : k * env.chunkSize ≤ (remaining.drop env.chunkSize).length := by
      simp only [List.length_drop]
      have : (k + 1) * env.chunkSize = k * env.chunkSize + env.chunkSize := by ring
      omega
    have hrec := ih (remaining.drop env.chunkSize) (start + env.chunkSize)
      (p + 1) (d + liveCount (remaining.take env.chunkSize)) hbef' hk' hlen'
    refine ⟨hrec.1, ?_⟩
    simp only [outcomes_countQuery, outcomes_chunkRead, outcomes_append,
      outcomes_poll, outcomes_hostsTrace, hrec.2]
    rw [← List.map_append]
    have hsplit : remaining.take ((k + 1) * env.chunkSize) =
        remaining.take env.chunkSize ++
          (remaining.drop env.chunkSize).take (k * env.chunkSize) := by
      have : (k + 1) * env.chunkSize = env.chunkSize + k * env.chunkSize := by ring
      rw [this, List.take_add]
    rw [hsplit]

/-- C8: if the chunk read at chunk k throws (the store becomes unavailable
at offset k*C after k healthy chunks), the exception propagates and aborts
the sweep: the run result is the store error, the outcomes already yielded
(those of chunks 0..k-1) stand, and no further outcome is yielded — the
failure is not converted into a per-record result. -/
theorem store_failure_aborts_sweep (env : SweepEnv) (k : Nat)
    (hpf : env.policyFails = false) (hC : 0 < env.chunkSize)
    (hi : ∀ j, env.interrupt j = false)
    (hbef : ∀ j, j < k → env.readFails (j * env.chunkSize) = false)
    (hk : env.readFails (k * env.chunkSize) = true)
    (hlen : k * env.chunkSize ≤ env.store.length) :
    (sweep env).2 = RunResult.storeError ∧
    outcomes (sweep env).1 =
      ((env.store.take (k * env.chunkSize)).map fun h => (h.id, !h.expired)) := by
  have h := sweepLoop_storefail_at env hpf hC hi k env.store 0 0 0
    (by simpa using hbef) (by simpa using hk) hlen
  exact ⟨by simpa [sweep] using h.1, by simpa [sweep] using h.2⟩

/-- A five-record store, chunk size 2, whose chunk read at offset 2 (the
second chunk) throws. -/
def envW8 : SweepEnv :=
  { store := [⟨1, false⟩, ⟨2, true⟩, ⟨3, false⟩, ⟨4, false⟩, ⟨5, false⟩]
    chunkSize := 2
    interrupt := fun _ => false
    readFails := fun o => decide (o = 2)
    sinkAcks := fun _ => true
    policyFails := false }

/-- Witness for C8 with k = 1: the outcomes of chunk 0 stand, the run ends
in the store error, nothing of chunks 1 and beyond is yielded. -/
theorem store_failure_aborts_sweep_witness :
    (∀ j, j < 1 → envW8.readFails (j * envW8.chunkSize) = false) ∧
    envW8.readFails (1 * envW8.chunkSize) = true ∧
    1 * envW8.chunkSize ≤ envW8.store.length ∧
    (sweep envW8).2 = RunResult.storeError ∧
    outcomes (sweep envW8).1 = [(1, true), (2, false)] := by
  have h := store_failure_aborts_sweep envW8 1 rfl (by decide) (fun _ => rfl)
    (by intro j hj; interval_cases j; rfl) rfl (by decide)
  refine ⟨by intro j hj; interval_cases j; rfl, rfl, by decide, h.1, ?_⟩
  rw [h.2]; rfl

lemma processHosts_allExpired (env : SweepEnv) (l : List Host) (d : Nat)
    (hall : ∀ x ∈ l, x.expired = true) :
    processHosts env l d = ((l.map fun x => Ev.yieldOut x.id false), some d) := by
  induction l with
  | nil => rfl
  | cons h t ih =>
    have hh := hall h (by simp)
    simp [processHosts, hh, ih fun x hx => hall x (by simp [hx])]

lemma processHosts_failAt (env : SweepEnv) (hpf : env.policyFails = true)
    (a : List Host) (h : Host) (rest : List Host) (d : Nat)
    (hall : ∀ x ∈ a, x.expired = true) (hlive : h.expired = false) :
    processHosts env (a ++ h :: rest) d =
      ((a.map fun x => Ev.yieldOut x.id false) ++ [Ev.policyEval h.id], none) := by
  induction a with
  | nil => simp [processHosts, hlive, hpf]
  | cons x t ih =>
    have hx := hall x (by simp)
    simp [processHosts, hx, ih fun y hy => hall y (by simp [hy])]

lemma sweepLoop_go_of (env : SweepEnv) (remaining : List Host)
    (start p d : Nat) (evs : List Ev) (d' : Nat)
    (hr : env.readFails start = false) (hc : remaining.take env.chunkSize ≠ [])
    (hph : processHosts env (remaining.take env.chunkSize) d = (evs, some d'))
    (hi : env.interrupt p = false) :
    sweepLoop env remaining start p d =
      (Ev.countQuery start (remaining.take env.chunkSize).length ::
        Ev.chunkRead start :: evs ++ Ev.poll p false ::
          (sweepLoop env (remaining.drop env.chunkSize) (start + env.chunkSize)
            (p + 1) d').1,
       (sweepLoop env (remaining.drop env.chunkSize) (start + env.chunkSize)
          (p + 1) d').2) := by
  rw [sweepLoop]
  simp [hr, hc, hph, hi]

lemma sweepLoop_policyStep (env : SweepEnv) (remaining : List Host)
    (start p d : Nat) (evs : List Ev)
    (hr : env.readFails start = false) (hc : remaining.take env.chunkSize ≠ [])
    (hph : processHosts env (remaining.take env.chunkSize) d = (evs, none)) :
    sweepLoop env remaining start p d =
      (Ev.countQuery start (remaining.take env.chunkSize).length ::
        Ev.chunkRead start :: evs, RunResult.policyError) := by
  rw [sweepLoop]
  simp [hr, hc, hph]

lemma outcomes_map_yield (l : List Host) :
    outcomes (l.map fun x => Ev.yieldOut x.id false) = l.map fun x => (x.id, false) := by
  induction l with
  | nil => rfl
  | cons h t ih => simp [ih]

lemma sweepLoop_policy_surfaces (env : SweepEnv) (hpf : env.policyFails = true)
    (hr : ∀ o, env.readFails o = false) (hi : ∀ j, env.interrupt j = false)
    (hC : 0 < env.chunkSize) :
    ∀ (n : Nat) (pre : List Host), pre.length ≤ n →
      ∀ (h : Host) (rest : List Host) (start p d : Nat),
        (∀ x ∈ pre, x.expired = true) → h.expired = false →
        (sweepLoop env (pre ++ h :: rest) start p d).2 = RunResult.policyError ∧
        outcomes (sweepLoop env (pre ++ h :: rest) start p d).1 =
          (pre.map fun x => (x.id, false)) ∧
        Ev.chunkRead start ∈ (sweepLoop env (pre ++ h :: rest) start p d).1 := by
  intro n
  induction n with
  | zero =>
    intro pre hlen h rest start p d hall hlive
    have hnil : pre = [] := List.eq_nil_of_length_eq_zero (Nat.le_zero.mp hlen)
    subst hnil
    have hchunk : ([] ++ h :: rest).take env.chunkSize =
        [] ++ h :: rest.take (env.chunkSize - 1) := by
      cases hcs : env.chunkSize with
      | zero => omega
      | succ m => simp [List.take_succ_cons]
    have hph := processHosts_failAt env hpf [] h (rest.take (env.chunkSize - 1)) d
      (by simp) hlive
    rw [sweepLoop_policyStep env ([] ++ h :: rest) start p d _ (hr start)
      (by rw [hchunk]; simp) (by rw [hchunk]; exact hph)]
    simp
  | succ n ih =>
    intro pre hlen h rest start p d hall hlive
    by_cases hsm : pre.length < env.chunkSize
    · have hchunk : (pre ++ h :: rest).take env.chunkSize =
          pre ++ h :: rest.take (env.chunkSize - pre.length - 1) := by
        rw [List.take_append_eq_append_take,
          List.take_of_length_le (Nat.le_of_lt hsm)]
        congr 1
        have heq : env.chunkSize - pre.length =
            (env.chunkSize - pre.length - 1) + 1 := by omega
        rw [heq, List.take_succ_cons]
        simp
      have hph := processHosts_failAt env hpf pre h
        (rest.take (env.chunkSize - pre.length - 1)) d hall hlive
      rw [sweepLoop_policyStep env (pre ++ h :: rest) start p d _ (hr start)
        (by rw [hchunk]; simp) (by rw [hchunk]; exact hph)]
      refine ⟨rfl, ?_, by simp⟩
      simp [outcomes_map_yield]
    · have hCle : env.chunkSize ≤ pre.length := Nat.le_of_not_lt hsm
      have hpne : pre ≠ [] := by
        intro hnil; rw [hnil] at hCle; simp at hCle; omega
      have hchunk : (pre ++ h :: rest).take env.chunkSize =
          pre.take env.chunkSize := by
        rw [List.take_append_eq_append_take]
        have : env.chunkSize - pre.length = 0 := by omega
        simp [this]
      have hcne : (pre ++ h :: rest).take env.chunkSize ≠ [] := by
        rw [hchunk]
        exact take_ne_nil_of_pos pre env.chunkSize hC hpne
      have hph := processHosts_allExpired env (pre.take env.chunkSize) d
        (fun x hx => hall x (List.take_subset env.chunkSize pre hx))
      rw [sweepLoop_go_of env (pre ++ h :: rest) start p d _ d (hr start) hcne
        (by rw [hchunk]; exact hph) (hi p)]
      have hdrop : (pre ++ h :: rest).drop env.chunkSize =
          pre.drop env.chunkSize ++ h :: rest := by
        rw [List.drop_append_eq_append_drop]
        have : env.chunkSize - pre.length = 0 := by omega
        simp [this]
      have hlen' : (pre.drop env.chunkSize).length ≤ n := by
        simp only [List.length_drop]
        omega
      have hrec := ih (pre.drop env.chunkSize) hlen' h rest
        (start + env.chunkSize) (p + 1) d
        (fun x hx => hall x (List.drop_subset env.chunkSize pre hx)) hlive
      rw [hdrop]
      refine ⟨hrec.1, ?_, by simp⟩
      simp only [outcomes_countQuery, outcomes_chunkRead, outcomes_append,
        outcomes_poll, outcomes_map_yield, hrec.2]
      rw [← List.map_append, List.take_append_drop]

/-- C3 (corrected): a malformed staleness-policy configuration is NOT
rejected when the sweep is constructed.  The generator builds the policy
configuration afresh per live record, inside the loop: with a failing policy
the run ends in the policy error only after the first chunk holding a live
record has been read, the expired records before the first live one have
already been yielded, and the failure surfaces exactly at that record. -/
theorem policy_failure_surfaces_during_iteration (env : SweepEnv)
    (pre post : List Host) (h : Host)
    (hpf : env.policyFails = true) (hr : ∀ o, env.readFails o = false)
    (hi : ∀ j, env.interrupt j = false) (hC : 0 < env.chunkSize)
    (hstore : env.store = pre ++ h :: post)
    (hall : ∀ x ∈ pre, x.expired = true) (hlive : h.expired = false) :
    (sweep env).2 = RunResult.policyError ∧
    outcomes (sweep env).1 = (pre.map fun x => (x.id, false)) ∧
    Ev.chunkRead 0 ∈ (sweep env).1 := by
  have hmain := sweepLoop_policy_surfaces env hpf hr hi hC pre.length pre
    (le_refl _) h post 0 0 0 hall hlive
  simp only [sweep]
  rw [hstore]
  exact ⟨hmain.1, by simpa using hmain.2.1, List.mem_cons_of_mem _ hmain.2.2⟩

/-- A store holding one expired and one live record behind a malformed
staleness policy, chunk size 1. -/
def envC3 : SweepEnv :=
  { store := [⟨1, true⟩, ⟨2, false⟩]
    chunkSize := 1
    interrupt := fun _ => false
    readFails := fun _ => false
    sinkAcks := fun _ => true
    policyFails := true }

/-- Counterexample to C3 as stated: with a malformed policy configuration
the sweep does not fail before any chunk is read — two chunks are read and
the expired record's outcome is yielded before the failure surfaces at the
first live record, per-record, during iteration. -/
theorem policy_failure_not_eager :
    (sweep envC3).1 =
      [Ev.totalCount 2, Ev.countQuery 0 1, Ev.chunkRead 0, Ev.yieldOut 1 false,
        Ev.poll 0 false, Ev.countQuery 1 1, Ev.chunkRead 1, Ev.policyEval 2] ∧
    (sweep envC3).2 = RunResult.policyError := by
  constructor <;> simp [sweep, sweepLoop, processHosts, envC3]

/-- Witness for C3 (corrected) on `envC3`: the failure surfaces as the
policy error after the first chunk read, with record 1 already yielded. -/
theorem policy_failure_surfaces_during_iteration_witness :
    envC3.policyFails = true ∧ 0 < envC3.chunkSize ∧
    envC3.store = [⟨1, true⟩] ++ (⟨2, false⟩ : Host) :: [] ∧
    (sweep envC3).2 = RunResult.policyError ∧
    outcomes (sweep envC3).1 = [(1, false)] ∧
    Ev.chunkRead 0 ∈ (sweep envC3).1 := by
  have h := policy_failure_surfaces_during_iteration envC3 [⟨1, true⟩] []
    ⟨2, false⟩ rfl (fun _ => rfl) (fun _ => rfl) (by decide) rfl
    (by intro x hx; simp at hx; rw [hx]) rfl
  exact ⟨rfl, by decide, rfl, h.1, by rw [h.2.1]; rfl, h.2.2⟩

/-- C7: per-record ordering.  Restricted to record-attributed events (policy
evaluations, dispatches, yields — the projection preserves the trace's
order), a clean run decomposes around any live record `h` as: all events of
the records before `h`, then — consecutively — `h`'s policy evaluation, its
dispatch and the yield of its outcome, then the events of the next record
`h'` and its successors.  So the dispatch for a record happens before its
outcome is yielded, which happens before any processing of the next record;
and the outcomes are yielded exactly in selection order, unbatched. -/
theorem dispatch_then_yield_then_next_record (env : SweepEnv)
    (pre post : List Host) (h h' : Host)
    (hr : ∀ o, env.readFails o = false) (hpf : env.policyFails = false)
    (hi : ∀ j, env.interrupt j = false) (hC : 0 < env.chunkSize)
    (hstore : env.store = pre ++ h :: h' :: post) (hlive : h.expired = false) :
    projHost (sweep env).1 =
      hostsProj env pre 0 ++ Ev.policyEval h.id ::
        Ev.dispatch h.id (env.sinkAcks (liveCount pre)) ::
        Ev.yieldOut h.id true :: hostsProj env (h' :: post) (liveCount pre + 1) ∧
    outcomes (sweep env).1 = (env.store.map fun x => (x.id, !x.expired)) := by
  have hm := sweepLoop_clean env hr hpf hi hC env.store.length env.store
    (le_refl _) 0 0 0
  obtain ⟨ho, _, _, _, hpj⟩ := hm
  constructor
  · have hpj' : projHost (sweep env).1 = hostsProj env env.store 0 := by
      simpa [sweep, projHost_cons, hostEv] using hpj
    rw [hpj', hstore, hostsProj_append]
    simp only [hostsProj, hlive, Bool.false_eq_true, if_false, Nat.zero_add]
  · simpa [sweep] using ho

/-- Records 2 and 3 straddle a chunk boundary: a four-record store with
record 1 expired, chunk size 2, so that record 3 sits in the second chunk. -/
def envW7 : SweepEnv :=
  { store := [⟨1, true⟩, ⟨2, false⟩, ⟨3, false⟩, ⟨4, false⟩]
    chunkSize := 2
    interrupt := fun _ => false
    readFails := fun _ => false
    sinkAcks := fun _ => true
    policyFails := false }

/-- Witness for C7 around live record 2 (followed by record 3 in the next
chunk). -/
theorem dispatch_then_yield_then_next_record_witness :
    envW7.store = [⟨1, true⟩] ++ (⟨2, false⟩ : Host) :: (⟨3, false⟩ : Host) ::
      [⟨4, false⟩] ∧
    projHost (sweep envW7).1 =
      [Ev.yieldOut 1 false, Ev.policyEval 2, Ev.dispatch 2 true,
        Ev.yieldOut 2 true, Ev.policyEval 3, Ev.dispatch 3 true,
        Ev.yieldOut 3 true, Ev.policyEval 4, Ev.dispatch 4 true,
        Ev.yieldOut 4 true] ∧
    outcomes (sweep envW7).1 = [(1, false), (2, true), (3, true), (4, true)] := by
  have h := dispatch_then_yield_then_next_record envW7 [⟨1, true⟩] [⟨4, false⟩]
    ⟨2, false⟩ ⟨3, false⟩ (fun _ => rfl) rfl (fun _ => rfl) (by decide) rfl rfl
  refine ⟨rfl, ?_, ?_⟩
  · rw [h.1]; rfl
  · rw [h.2]; rfl

lemma offsetLimit_eq_drop_take (store : List Host) (start lim : Nat) :
    offsetLimit store start lim = (store.drop start).take lim := rfl
